import Mathlib

/-!
# Verification of the ProxyServer core against its specification

Shallow embedding of the Go sources:
* `cache/cache.go` — the thread-safe LRU cache (`LRUCache`), embedded as a
  functional state machine over an association list ordered from most- to
  least-recently used (the Go code keeps a `container/list` plus a map that
  are always in sync; the single ordered list with unique keys represents
  both).
* `proxy/worker_pool.go` — the bounded worker pool, embedded as its queue
  state plus Go channel-send semantics.
* `proxy/proxy.go` — the request pipeline: domain filtering, cacheability,
  TTL derivation, the cached-response wire format, and `handleRequest`.

Go machine integers are modelled as `Int` (no arithmetic here approaches
2^63), byte slices and strings as `List Char` / `String`, `time.Time` as an
`Int` number of nanoseconds, `time.Duration` as an `Int` number of
nanoseconds.  Calls into the Go standard library that are not part of the
repository (`time.Parse`, `url.Parse`, `http.NewRequest`, the network
client) enter the embedding as explicit oracle inputs.
-/

namespace ProxyServer

/-- One nanosecond-count per second: Go's `time.Second`. -/
def secondNs : Int := 1000000000

/-! ## cache/cache.go -/

/-- `CacheItem` from cache/cache.go.  `ExpiresAt` is `none` when the Go
value is the zero `time.Time` (set only when `ttl > 0`). -/
structure CacheItem where
  key : String
  value : List Char
  size : Int
  createdAt : Int
  expiresAt : Option Int
deriving DecidableEq, Repr

/-- `LRUCache` from cache/cache.go.  `items` is ordered front-to-back from
most- to least-recently used; it plays the role of both `evictionList` and
the `items` map (keys are unique in any reachable state). -/
structure LRUCache where
  capacity : Int
  evictions : Int
  hits : Int
  misses : Int
  totalSize : Int
  items : List CacheItem
deriving DecidableEq, Repr

/-- `NewLRUCache`: empty cache with the given capacity and zeroed stats. -/
def NewLRUCache (capacity : Int) : LRUCache :=
  { capacity := capacity, evictions := 0, hits := 0, misses := 0
    totalSize := 0, items := [] }

/-- Lookup of `items[key]` (the Go map probe): first item with that key. -/
def findItem (c : LRUCache) (k : String) : Option CacheItem :=
  c.items.find? (fun it => it.key == k)

/-- Removal of the element holding `key` from the recency list (the effect
of `list.Remove` on the element found under `key`); no-op when absent. -/
def removeKey : List CacheItem → String → List CacheItem
  | [], _ => []
  | it :: rest, k => if it.key == k then rest else it :: removeKey rest k

/-- `time.Now().After(item.ExpiresAt)` guarded by `!IsZero`: an item is
expired at `now` iff it has an expiry and `now` is strictly past it. -/
def expiredAt (it : CacheItem) (now : Int) : Bool :=
  match it.expiresAt with
  | none => false
  | some e => now > e

/-- `evictElement` applied to the list's back element (`evictOldest`):
drop the last item, charge its size, count one eviction.  No-op on an
empty list (Go: `Back()` returns nil). -/
def evictOldestModel (c : LRUCache) : LRUCache :=
  match c.items.getLast? with
  | none => c
  | some it =>
    { c with items := c.items.dropLast
             totalSize := c.totalSize - it.size
             evictions := c.evictions + 1 }

/-- The `for c.evictionList.Len() > c.capacity` loop, run on fuel.  A fuel
of `items.length` is exact whenever `capacity ≥ 0`: each pass removes one
item until the count is within capacity.  (For `capacity < 0` the Go loop
never terminates once the list is empty; the fuel then runs out instead —
no theorem below concerns a negative capacity.) -/
def evictN : Nat → LRUCache → LRUCache
  | 0, c => c
  | n + 1, c =>
    if c.capacity < (c.items.length : Int) then evictN n (evictOldestModel c)
    else c

/-- Eviction loop entry point used by `Set`. -/
def evictLoop (c : LRUCache) : LRUCache :=
  evictN c.items.length c

/-- `Set(key, value, ttl)` from cache/cache.go, with `now` the value of
`time.Now()` during the call.  Returns the new state and the Go return
value (`true` = inserted, `false` = updated). -/
def setOp (c : LRUCache) (k : String) (v : List Char) (ttl : Int) (now : Int) :
    LRUCache × Bool :=
  let expiresAt : Option Int := if ttl > 0 then some (now + ttl) else none
  let item : CacheItem :=
    { key := k, value := v, size := (v.length : Int)
      createdAt := now, expiresAt := expiresAt }
  match c.items.find? (fun it => it.key == k) with
  | some old =>
    ({ c with totalSize := c.totalSize - old.size + item.size
              items := item :: removeKey c.items k }, false)
  | none =>
    let c1 := { c with items := item :: c.items
                       totalSize := c.totalSize + item.size }
    (evictLoop c1, true)

/-- `Get(key)` from cache/cache.go with `now` the probed clock value,
taken with its sequential (single-caller) meaning: probe, lazy-expiry
eviction, promotion and stat update in order.  Returns the new state, the
returned item and the `found` flag. -/
def getOp (c : LRUCache) (k : String) (now : Int) :
    LRUCache × Option CacheItem × Bool :=
  match c.items.find? (fun it => it.key == k) with
  | none => ({ c with misses := c.misses + 1 }, none, false)
  | some item =>
    if expiredAt item now then
      ({ c with items := removeKey c.items k
                totalSize := c.totalSize - item.size
                evictions := c.evictions + 1
                misses := c.misses + 1 }, none, false)
    else
      ({ c with items := item :: removeKey c.items k
                hits := c.hits + 1 }, some item, true)

/-- `Remove(key)` from cache/cache.go. -/
def removeOp (c : LRUCache) (k : String) : LRUCache × Bool :=
  match c.items.find? (fun it => it.key == k) with
  | none => (c, false)
  | some item =>
    ({ c with items := removeKey c.items k
              totalSize := c.totalSize - item.size
              evictions := c.evictions + 1 }, true)

/-- `Clear()` from cache/cache.go: drop the map and list, reset the
aggregate size, keep every statistics counter. -/
def clearOp (c : LRUCache) : LRUCache :=
  { c with items := [], totalSize := 0 }

/-- `Size()` from cache/cache.go. -/
def sizeOp (c : LRUCache) : Int :=
  (c.items.length : Int)

/-- `CacheStats` from cache/cache.go.  `HitRate` (a Go `float64`) is
modelled as an exact rational. -/
structure CacheStats where
  size : Int
  capacity : Int
  hits : Int
  misses : Int
  hitRate : Rat
  evictions : Int
  avgSize : Int
deriving DecidableEq, Repr

/-- `Stats()` from cache/cache.go. -/
def statsOp (c : LRUCache) : CacheStats :=
  let size := (c.items.length : Int)
  let total := c.hits + c.misses
  let hitRate : Rat := if total > 0 then (c.hits : Rat) / (total : Rat) else 0
  let avgSize : Int := if size > 0 then c.totalSize / size else 0
  { size := size, capacity := c.capacity, hits := c.hits, misses := c.misses
    hitRate := hitRate, evictions := c.evictions, avgSize := avgSize }

/-! ### The two lock sections of `Get`

The Go `Get` is not one critical section: it takes `RLock` to probe the
map, releases it, reads the element and checks expiry with no lock held,
and then takes the write lock to mutate.  The two defs below embed the two
phases so that interleavings of concurrent calls can be expressed; an
element is identified by its key (unique among live elements). -/

/-- What the `RLock` section of `Get` observes: the map probe together
with the element-value read that follows it (`element.Value`). -/
structure GetProbe where
  found : Bool
  item : Option CacheItem
deriving DecidableEq, Repr

/-- Phase one of the Go `Get`: the shared-lock probe of `c.items[key]`. -/
def getProbePhase (c : LRUCache) (k : String) : GetProbe :=
  match c.items.find? (fun it => it.key == k) with
  | none => { found := false, item := none }
  | some it => { found := true, item := some it }

/-- Phase two of the Go `Get`: the separate write-lock section, applied to
the (possibly changed) current state using the stale probe.  On the
expired path `evictElement` removes the element if still present (Go's
`list.Remove` and `delete` are no-ops on an absent element) but
unconditionally subtracts the size and bumps `evictions` and `misses`.
On the live path `MoveToFront` moves the element only if still in the
list, while `hits` is bumped unconditionally. -/
def getCommitPhase (c : LRUCache) (k : String) (now : Int) (p : GetProbe) :
    LRUCache :=
  match p.item with
  | none => { c with misses := c.misses + 1 }
  | some it =>
    if expiredAt it now then
      { c with items := removeKey c.items k
               totalSize := c.totalSize - it.size
               evictions := c.evictions + 1
               misses := c.misses + 1 }
    else
      { c with items := if c.items.any (fun x => x.key == k) then
                          it :: removeKey c.items k
                        else c.items
               hits := c.hits + 1 }

/-- Two concurrent `Get(k)` calls interleaved as: probe₁, probe₂,
commit₁, commit₂ — an interleaving the split locking of the Go `Get`
permits (both shared-lock probes may run before either write-lock
section). -/
def twoGetsProbeProbeCommitCommit (c : LRUCache) (k : String) (now : Int) :
    LRUCache :=
  let p1 := getProbePhase c k
  let p2 := getProbePhase c k
  let c1 := getCommitPhase c k now p1
  getCommitPhase c1 k now p2

/-- Two `Get(k)` calls run back to back as single atomic critical
sections (the behaviour the specification demands). -/
def twoGetsAtomic (c : LRUCache) (k : String) (now : Int) : LRUCache :=
  let c1 := (getOp c k now).1
  (getOp c1 k now).1

/-! ## proxy/worker_pool.go -/

/-- The worker-pool state visible to `Enqueue`/`Stop`: the job queue
(channel buffer) with its capacity, and whether `close(jobQueue)` has
happened.  Jobs themselves are opaque. -/
structure WorkerPool where
  maxWorkers : Int
  queueCap : Int
  queue : List Unit
  closed : Bool
deriving DecidableEq, Repr

/-- `NewWorkerPool(maxWorkers)`: non-positive sizes fall back to 10
workers; the channel buffer is twice the (corrected) worker count. -/
def NewWorkerPool (maxWorkers : Int) : WorkerPool :=
  let m := if maxWorkers ≤ 0 then 10 else maxWorkers
  { maxWorkers := m, queueCap := m * 2, queue := [], closed := false }

/-- Outcome of the channel send `wp.jobQueue <- job` that `Enqueue`
performs, under Go channel semantics: sending on a closed channel panics
immediately; otherwise the send buffers when there is room and blocks the
caller when the buffer is full. -/
inductive SendResult where
  | sent
  | blocked
  | panicked
deriving DecidableEq, Repr

/-- The channel send inside `Enqueue` — its first and only queue
interaction, so its outcome decides whether `Enqueue` can block or must
abort. -/
def enqueueSend (wp : WorkerPool) : SendResult :=
  if wp.closed then SendResult.panicked
  else if (wp.queue.length : Int) < wp.queueCap then SendResult.sent
  else SendResult.blocked

/-- The first action of `Stop()`: `close(wp.jobQueue)`. -/
def stopBegin (wp : WorkerPool) : WorkerPool :=
  { wp with closed := true }

/-! ## proxy/proxy.go — headers and small string helpers -/

/-- Go `http.Header`: a multimap from header name to the ordered list of
its values.  The pipeline only ever uses canonical names, so MIME-key
canonicalisation is the identity on every name occurring here. -/
def Header := List (String × List String)

instance : DecidableEq Header := by
  unfold Header
  infer_instance

/-- `Header.Get`: first value stored under the name, `""` when absent. -/
def headerGet (h : Header) (k : String) : String :=
  match h.find? (fun p => p.1 == k) with
  | some (_, v :: _) => v
  | _ => ""

/-- `Header.Add`: append the value under the name, keeping per-name
insertion order (new names go to the end of the map model). -/
def headerAdd : Header → String → String → Header
  | [], k, v => [(k, [v])]
  | (k0, vs) :: rest, k, v =>
    if k0 == k then (k0, vs ++ [v]) :: rest
    else (k0, vs) :: headerAdd rest k v

/-- `strings.Contains s sub` on byte lists. -/
def containsSubstr (sub : List Char) : List Char → Bool
  | [] => sub.isEmpty
  | c :: rest => sub.isPrefixOf (c :: rest) || containsSubstr sub rest

/-- Go `unicode.IsSpace` restricted to the ASCII range, which is all the
HTTP header values here can contain. -/
def isSpaceChar (c : Char) : Bool :=
  c == ' ' || c == '\t' || c == '\n' || c == '\r' ||
  c == '\x0b' || c == '\x0c'

/-- `strings.TrimSpace` on byte lists. -/
def trimSpace (s : List Char) : List Char :=
  (s.dropWhile isSpaceChar).reverse.dropWhile isSpaceChar |>.reverse

/-- `strings.Split(s, ",")` on byte lists. -/
def splitComma : List Char → List (List Char)
  | [] => [[]]
  | ',' :: rest => [] :: splitComma rest
  | c :: rest =>
    match splitComma rest with
    | [] => [[c]]
    | g :: gs => (c :: g) :: gs

/-- `strconv.Atoi`: optional sign followed by at least one digit and
nothing else. -/
def atoiDigits : List Char → Option Int
  | [] => none
  | l => l.foldl
      (fun acc c => match acc with
        | none => none
        | some n => if c.isDigit then some (n * 10 + ((c.toNat : Int) - 48)) else none)
      (some 0)

/-- `strconv.Atoi` including the optional leading sign. -/
def atoi : List Char → Option Int
  | '+' :: rest => atoiDigits rest
  | '-' :: rest => (atoiDigits rest).map (fun n => -n)
  | l => atoiDigits l

/-! ## proxy/proxy.go — the cached-response wire format -/

/-- `CachedResponse` from proxy/proxy.go. -/
structure CachedResponse where
  statusCode : Int
  header : Header
  body : List Char
deriving DecidableEq

/-- The `"\r\n"` separator. -/
def crlf : List Char := ['\r', '\n']

/-- One serialized header line group: `key: value\r\n` once per value. -/
def serializeHeaderLines : Header → List Char
  | [] => []
  | (k, vs) :: rest =>
    (vs.map (fun v => k.data ++ (": ").data ++ v.data ++ crlf)).flatten
      ++ serializeHeaderLines rest

/-- `serializeResponse`: status line, header lines, blank line, body.
The Go loop ranges over a map whose iteration order is unspecified; the
model fixes it to the multimap's list order. -/
def serializeResponse (r : CachedResponse) : List Char :=
  (toString r.statusCode).data ++ crlf ++ serializeHeaderLines r.header
    ++ crlf ++ r.body

/-- `bytes.SplitN(data, "\r\n\r\n", 2)`: split at the first occurrence of
the blank-line separator; `none` when the separator never occurs (in Go,
`len(parts) != 2`). -/
def splitOnBlankLine : List Char → Option (List Char × List Char)
  | [] => none
  | c :: rest =>
    if c = '\r' ∧ rest.take 3 = ['\n', '\r', '\n'] then
      some ([], rest.drop 3)
    else
      match splitOnBlankLine rest with
      | none => none
      | some (a, b) => some (c :: a, b)

/-- `bytes.Split(block, "\r\n")`: split at every occurrence. -/
def splitCRLF : List Char → List (List Char)
  | '\r' :: '\n' :: rest => [] :: splitCRLF rest
  | c :: rest =>
    match splitCRLF rest with
    | [] => [[c]]
    | g :: gs => (c :: g) :: gs
  | [] => [[]]

/-- `bytes.SplitN(line, ": ", 2)` — split at the first occurrence. -/
def splitColonSpace : List Char → Option (List Char × List Char)
  | ':' :: ' ' :: rest => some ([], rest)
  | c :: rest =>
    match splitColonSpace rest with
    | none => none
    | some (a, b) => some (c :: a, b)
  | [] => none

/-- `fmt.Sscanf(s, "%d", &statusCode)`: skip leading spaces, read an
optionally signed digit run; trailing bytes are not an error. -/
def scanInt (s : List Char) : Option Int :=
  match s.dropWhile isSpaceChar with
  | '-' :: rest =>
    let ds := rest.takeWhile Char.isDigit
    if ds.isEmpty then none else (atoiDigits ds).map (fun n => -n)
  | '+' :: rest =>
    let ds := rest.takeWhile Char.isDigit
    if ds.isEmpty then none else atoiDigits ds
  | other =>
    let ds := other.takeWhile Char.isDigit
    if ds.isEmpty then none else atoiDigits ds

/-- `parseCachedResponse`: split off the body at the first blank line,
split the header block into lines, read the status from the first line,
fold the remaining `name: value` lines into a header multimap (lines
without `": "` are skipped), and return the reassembled response. -/
def parseCachedResponse (data : List Char) : Option CachedResponse :=
  match splitOnBlankLine data with
  | none => none
  | some (headerBlock, body) =>
    match splitCRLF headerBlock with
    | [] => none
    | statusLine :: headerLines =>
      match scanInt statusLine with
      | none => none
      | some status =>
        let headers := headerLines.foldl
          (fun h line =>
            match splitColonSpace line with
            | some (k, v) => headerAdd h (String.mk k) (String.mk v)
            | none => h)
          ([] : Header)
        some { statusCode := status, header := headers, body := body }

/-! ## proxy/proxy.go — cacheability and TTL -/

/-- The request as the pipeline sees it.  `queryURL` is
`r.URL.Query().Get("url")` (`""` when absent); `reqURL` is the URL the
server parsed from the request line. -/
structure URLModel where
  scheme : String
  host : String
  full : String
deriving DecidableEq, Repr

/-- Inbound request model. -/
structure Request where
  method : String
  queryURL : String
  reqURL : URLModel
  headers : Header

/-- Upstream response model: what `client.Do` produced. -/
structure UpstreamResponse where
  status : Int
  headers : Header
  body : List Char

/-- The pipeline's configuration slice: `AllowedDomains` and `CacheTTL`
(seconds) from config.Config. -/
structure ProxyConfig where
  allowedDomains : List String
  cacheTTL : Int

/-- `isDomainAllowed`: an empty allow-list admits every host; otherwise
some configured domain must be a plain string suffix of the host. -/
def isDomainAllowed (allowed : List String) (host : String) : Bool :=
  if allowed.isEmpty then true
  else allowed.any (fun d => d.data.isSuffixOf host.data)

/-- `isCacheable` (request side): method in the cacheables map
(GET/HEAD), no Authorization header, no `no-store` token inside
Cache-Control. -/
def isCacheable (r : Request) : Bool :=
  (r.method == "GET" || r.method == "HEAD")
  && headerGet r.headers "Authorization" == ""
  && !(containsSubstr ("no-store").data (headerGet r.headers "Cache-Control").data)

/-- `isResponseCacheable`: status exactly 200, no `no-store` token, no
Set-Cookie header. -/
def isResponseCacheable (ur : UpstreamResponse) : Bool :=
  ur.status == 200
  && !(containsSubstr ("no-store").data (headerGet ur.headers "Cache-Control").data)
  && headerGet ur.headers "Set-Cookie" == ""

/-- `createCacheKey`: `METHOD:URL.String()`. -/
def createCacheKey (r : Request) (u : URLModel) : String :=
  r.method ++ ":" ++ u.full

/-- The scanning loop over comma-split Cache-Control directives: trim
each directive, and return the value of the first `max-age=` directive
whose remainder parses with `Atoi`; directives that fail to parse are
skipped and the scan continues. -/
def scanMaxAge : List (List Char) → Option Int
  | [] => none
  | d :: rest =>
    let d' := trimSpace d
    if ("max-age=").data.isPrefixOf d' then
      match atoi (d'.drop 8) with
      | some n => some n
      | none => scanMaxAge rest
    else scanMaxAge rest

/-- The four layout strings tried against the Expires header, in source
order: RFC1123, RFC1123Z, and the two legacy layouts. -/
def httpTimeFormats : List String :=
  ["Mon, 02 Jan 2006 15:04:05 MST",
   "Mon, 02 Jan 2006 15:04:05 -0700",
   "Mon, 02-Jan-2006 15:04:05 MST",
   "Monday, 02-Jan-2006 15:04:05 MST"]

/-- The Cache-Control arm of `calculateTTL`: `none` when the header is
absent or no directive yields a parsed max-age. -/
def ccMaxAge (hdr : Header) : Option Int :=
  let cc := headerGet hdr "Cache-Control"
  if cc ≠ "" then scanMaxAge (splitComma cc.data) else none

/-- The Expires arm of `calculateTTL`: the absolute time parsed by the
first layout that succeeds.  `dateParse layout value` is the oracle for
Go's `time.Parse`, which lives in the standard library. -/
def expiresTime (dateParse : String → String → Option Int) (hdr : Header) :
    Option Int :=
  let ex := headerGet hdr "Expires"
  if ex ≠ "" then httpTimeFormats.findSome? (fun f => dateParse f ex) else none

/-- `calculateTTL`: first parsed max-age (in seconds, scaled to a
duration); else `time.Until` of the first parsing of Expires; else the
configured default (`config.CacheTTL` seconds). -/
def calculateTTL (dateParse : String → String → Option Int) (now : Int)
    (hdr : Header) (cfgTTL : Int) : Int :=
  match ccMaxAge hdr with
  | some n => n * secondNs
  | none =>
    match expiresTime dateParse hdr with
    | some t => t - now
    | none => cfgTTL * secondNs

/-- The TTL `cacheResponse` actually hands to `cache.Set`: the derived
TTL when it is positive, the configured default otherwise
(`if ttl <= 0 { ttl = default }`). -/
def cacheResponseTTL (dateParse : String → String → Option Int) (now : Int)
    (hdr : Header) (cfgTTL : Int) : Int :=
  let ttl := calculateTTL dateParse now hdr cfgTTL
  if ttl ≤ 0 then cfgTTL * secondNs else ttl

/-- `cacheResponse`: derive the TTL, serialize `{status, headers, body}`
and `Set` it under the key. -/
def cacheResponse (dateParse : String → String → Option Int) (now : Int)
    (cfg : ProxyConfig) (c : LRUCache) (key : String)
    (ur : UpstreamResponse) : LRUCache :=
  let ttl := cacheResponseTTL dateParse now ur.headers cfg.cacheTTL
  let serialized := serializeResponse
    { statusCode := ur.status, header := ur.headers, body := ur.body }
  (setOp c key serialized ttl now).1

/-! ## proxy/proxy.go — handleRequest -/

/-- The standard-library effects `handleRequest` depends on, as explicit
inputs: the result of `url.Parse` on the `url` query parameter, whether
`http.NewRequest` succeeds inside `cloneRequest`, the result of
`client.Do`, and `time.Parse`. -/
structure Oracle where
  parseURL : Option URLModel
  cloneOk : Bool
  fetch : Option UpstreamResponse
  dateParse : String → String → Option Int

/-- What the pipeline writes back: the status, the body bytes, the
message handed to `http.Error` on the error paths (Go appends a newline
to it in the body), and the `X-Cache` marker when set. -/
structure PipelineResult where
  status : Int
  body : List Char
  errMsg : Option String
  xcache : Option String
deriving DecidableEq

/-- `http.Error(w, msg, status)`: plaintext message plus newline. -/
def httpError (status : Int) (msg : String) : PipelineResult :=
  { status := status, body := (msg ++ "\n").data, errMsg := some msg
    xcache := none }

/-- Target resolution (proxy.go lines 72–89): a present `url` query
parameter is parsed and replaces the request URL (a parse failure is a
400); an absent parameter requires the request URL itself to carry a
scheme and a host (else a 400). -/
def resolveTarget (o : Oracle) (r : Request) : Except PipelineResult URLModel :=
  if r.queryURL ≠ "" then
    match o.parseURL with
    | none => Except.error (httpError 400 "Invalid URL format")
    | some u => Except.ok u
  else if r.reqURL.scheme = "" ∨ r.reqURL.host = "" then
    Except.error
      (httpError 400 "Invalid proxy request. URL must include scheme and host.")
  else Except.ok r.reqURL

/-- `handleRequest`: resolution, domain filter, cache lookup (hit replay
with `X-Cache: HIT`; a parse failure falls through as a miss), outbound
request construction (500 on failure), fetch (502 on failure), response
caching when both sides are cacheable, and the passthrough write with
`X-Cache: MISS`. -/
def handleRequest (cfg : ProxyConfig) (o : Oracle) (now : Int)
    (c : LRUCache) (r : Request) : PipelineResult × LRUCache :=
  match resolveTarget o r with
  | Except.error e => (e, c)
  | Except.ok u =>
    if !(isDomainAllowed cfg.allowedDomains u.host) then
      (httpError 403 "Domain not allowed", c)
    else
      let key := createCacheKey r u
      let afterCache : Option PipelineResult × LRUCache :=
        if isCacheable r then
          match getOp c key now with
          | (c1, some item, true) =>
            match parseCachedResponse item.value with
            | some cr =>
              (some { status := cr.statusCode, body := cr.body
                      errMsg := none, xcache := some "HIT" }, c1)
            | none => (none, c1)
          | (c1, _, _) => (none, c1)
        else (none, c)
      match afterCache with
      | (some res, c1) => (res, c1)
      | (none, c1) =>
        if !o.cloneOk then
          (httpError 500 "Error creating proxy request", c1)
        else
          match o.fetch with
          | none => (httpError 502 "Error forwarding request", c1)
          | some ur =>
            let c2 :=
              if isCacheable r && isResponseCacheable ur then
                cacheResponse o.dateParse now cfg c1 key ur
              else c1
            ({ status := ur.status, body := ur.body
               errMsg := none, xcache := some "MISS" }, c2)

/-! ## Concrete scenario data used by the theorems below -/

/-- One recorded `Set` call: its arguments and the clock value observed
during the call. -/
structure SetCall where
  key : String
  value : List Char
  ttl : Int
  now : Int

/-- Replay a sequence of `Set` calls against a cache state. -/
def applySets (c : LRUCache) : List SetCall → LRUCache
  | [] => c
  | s :: rest => applySets (setOp c s.key s.value s.ttl s.now).1 rest

/-- A cache holding one already-expired entry (`expiresAt = 10`, probed
at `now = 20`), the starting state for the concurrent-`Get` scenario. -/
def expiredEntryCache : LRUCache :=
  { capacity := 3, evictions := 0, hits := 0, misses := 0, totalSize := 5
    items := [{ key := "k", value := ['h', 'e', 'l', 'l', 'o'], size := 5
                createdAt := 0, expiresAt := some 10 }] }

/-- An oracle under which no standard-library effect succeeds: the query
URL does not parse, `http.NewRequest` fails, the fetch fails, no date
layout parses. -/
def failingOracle : Oracle :=
  { parseURL := none, cloneOk := false, fetch := none
    dateParse := fun _ _ => none }

/-- A POST request for an absolute URL, no headers: non-cacheable, so the
pipeline goes straight to outbound-request construction. -/
def postRequest : Request :=
  { method := "POST", queryURL := ""
    reqURL := { scheme := "http", host := "h.test", full := "http://h.test/x" }
    headers := [] }

/-- A GET request whose host `other.org` is outside the allow-list used
in the domain-filter scenario. -/
def otherOrgRequest : Request :=
  { method := "GET", queryURL := ""
    reqURL := { scheme := "http", host := "other.org", full := "http://other.org/" }
    headers := [] }

/-- A `time.Parse` oracle that recognises exactly the string `"past"`
under the RFC1123 layout, yielding the absolute time 0. -/
def pastDateParse : String → String → Option Int :=
  fun f v =>
    if f = "Mon, 02 Jan 2006 15:04:05 MST" ∧ v = "past" then some 0 else none

/-- An upstream header carrying only `Expires: past`. -/
def pastExpiresHeader : Header := [("Expires", ["past"])]

/-- The capacity-3 cache after `Set a; Set b; Set c; Get a`. -/
def lruAfterGetA : LRUCache :=
  (getOp ((setOp ((setOp ((setOp (NewLRUCache 3)
    "a" ['a'] 0 0).1) "b" ['b'] 0 0).1) "c" ['c'] 0 0).1) "a" 0).1

/-- The same cache after the subsequent `Set d`. -/
def lruFinal : LRUCache :=
  (setOp lruAfterGetA "d" ['d'] 0 0).1

end ProxyServer

namespace ProxyServer

/-! ## Helper lemmas -/

/-- Removing the element found under `k` shortens the list by one. -/
theorem removeKey_length {l : List CacheItem} {k : String} {it : CacheItem}
    (h : l.find? (fun x => x.key == k) = some it) :
    (removeKey l k).length + 1 = l.length := by
  induction l with
  | nil => simp at h
  | cons x rest ih =>
    by_cases hx : (x.key == k) = true
    · simp [removeKey, hx]
    · have hx' : (x.key == k) = false := by simpa using hx
      rw [List.find?_cons_of_neg _ (by simp [hx'])] at h
      have := ih h
      simp only [removeKey, hx', Bool.false_eq_true, if_false, List.length_cons]
      omega

/-- The eviction loop brings the item count within a nonnegative
capacity whenever its fuel covers the overshoot, and never touches the
capacity. -/
theorem evictN_le (n : Nat) :
    ∀ c : LRUCache, 0 ≤ c.capacity →
      (c.items.length : Int) ≤ c.capacity + n →
      ((evictN n c).items.length : Int) ≤ c.capacity ∧
        (evictN n c).capacity = c.capacity := by
  induction n with
  | zero =>
    intro c _ hlen
    simpa [evictN] using hlen
  | succ m ih =>
    intro c h0 hlen
    by_cases hc : c.capacity < (c.items.length : Int)
    · have hne : c.items ≠ [] := by
        intro he
        rw [he] at hc
        simp at hc
        omega
      obtain ⟨lst, hl⟩ := List.getLast?_isSome.mpr hne |> Option.isSome_iff_exists.mp
      have hcap : (evictOldestModel c).capacity = c.capacity := by
        simp [evictOldestModel, hl]
      have hitems : (evictOldestModel c).items = c.items.dropLast := by
        simp [evictOldestModel, hl]
      have hlen1 : (evictOldestModel c).items.length = c.items.length - 1 := by
        rw [hitems, List.length_dropLast]
      have hpos : 0 < c.items.length := List.length_pos.mpr hne
      have step := ih (evictOldestModel c)
        (by rw [hcap]; exact h0)
        (by rw [hcap, hlen1]; push_cast [Nat.cast_sub hpos]; omega)
      simp only [evictN, if_pos hc]
      rw [hcap] at step
      exact step
    · simp only [evictN, if_neg hc]
      exact ⟨le_of_not_lt hc, trivial⟩

/-- `Set` keeps the item count within a nonnegative capacity and leaves
the capacity unchanged. -/
theorem setOp_le (c : LRUCache) (k : String) (v : List Char) (ttl now : Int)
    (h0 : 0 ≤ c.capacity) (hlen : (c.items.length : Int) ≤ c.capacity) :
    (((setOp c k v ttl now).1).items.length : Int) ≤ c.capacity ∧
      ((setOp c k v ttl now).1).capacity = c.capacity := by
  unfold setOp
  cases hf : c.items.find? (fun it => it.key == k) with
  | some old =>
    have := removeKey_length hf
    constructor
    · simp only [List.length_cons]
      omega
    · rfl
  | none =>
    simp only [evictLoop]
    have step := evictN_le
      (c.items.length + 1)
      { c with
          items := { key := k, value := v, size := (v.length : Int)
                     createdAt := now
                     expiresAt := if ttl > 0 then some (now + ttl) else none }
                   :: c.items
          totalSize := c.totalSize + (v.length : Int) }
      (by simpa using h0)
      (by simp only [List.length_cons]; push_cast; omega)
    simpa using step

/-- Replaying `Set` calls preserves `size ≤ capacity` together with the
capacity itself. -/
theorem applySets_le (ops : List SetCall) :
    ∀ c : LRUCache, 0 ≤ c.capacity →
      (c.items.length : Int) ≤ c.capacity →
      ((applySets c ops).items.length : Int) ≤ c.capacity ∧
        (applySets c ops).capacity = c.capacity := by
  induction ops with
  | nil => intro c _ hlen; exact ⟨hlen, rfl⟩
  | cons s rest ih =>
    intro c h0 hlen
    simp only [applySets]
    have step := setOp_le c s.key s.value s.ttl s.now h0 hlen
    have tail := ih (setOp c s.key s.value s.ttl s.now).1
      (by rw [step.2]; exact h0) (by rw [step.2]; exact step.1)
    rw [step.2] at tail
    exact tail

/-- Unfolding step of the eviction loop (definitional). -/
theorem evictN_unfold (m : Nat) (d : LRUCache) :
    evictN (m + 1) d =
      if d.capacity < (d.items.length : Int) then evictN m (evictOldestModel d)
      else d := rfl

/-- Pushing one item onto a cache whose list exactly fills its capacity
makes the eviction loop drop exactly the back (least-recently-used)
element and nothing else. -/
theorem evictLoop_cons_at_capacity (c : LRUCache) (x : CacheItem)
    (init : List CacheItem) (lst : CacheItem)
    (hitems : c.items = x :: (init ++ [lst]))
    (hcap : c.capacity = ((init ++ [lst]).length : Int)) :
    (evictLoop c).items = x :: init := by
  have hlen2 : c.items.length = init.length + 2 := by
    simp [hitems]
  have hcond : c.capacity < (c.items.length : Int) := by
    rw [hcap, hlen2]
    simp only [List.length_append, List.length_singleton]
    push_cast
    omega
  have hgl : c.items.getLast? = some lst := by
    rw [hitems, ← List.cons_append, List.getLast?_concat]
  have hdl : c.items.dropLast = x :: init := by
    rw [hitems, ← List.cons_append, List.dropLast_concat]
  have hev : evictOldestModel c =
      { c with items := x :: init
               totalSize := c.totalSize - lst.size
               evictions := c.evictions + 1 } := by
    simp [evictOldestModel, hgl, hdl]
  have hnocond :
      ¬ ((evictOldestModel c).capacity <
          (((evictOldestModel c).items.length : Nat) : Int)) := by
    rw [hev]
    simp only [List.length_cons]
    rw [hcap]
    simp only [List.length_append, List.length_singleton]
    push_cast
    omega
  rw [evictLoop, hlen2]
  rw [show init.length + 2 = init.length + 1 + 1 from rfl]
  rw [evictN_unfold, if_pos hcond, evictN_unfold, if_neg hnocond, hev]

/-! ## Claim theorems -/

/-- C2: after any sequence of `Set` calls on a cache built with
nonnegative capacity `cap`, `Size()` never exceeds `cap`; with `cap = 0`
the store is a pure sink — the size is 0 after every call and no `Get`
of any key ever reports `found = true`. -/
theorem size_le_capacity_after_sets (cap : Int) (hcap : 0 ≤ cap)
    (ops : List SetCall) :
    sizeOp (applySets (NewLRUCache cap) ops) ≤ cap ∧
    (cap = 0 → ∀ (k : String) (now : Int),
      (getOp (applySets (NewLRUCache cap) ops) k now).2.2 = false) := by
  have hcap' : (NewLRUCache cap).capacity = cap := rfl
  have main := applySets_le ops (NewLRUCache cap)
    (by rw [hcap']; exact hcap) (by simp [NewLRUCache]; exact hcap)
  rw [hcap'] at main
  refine ⟨main.1, ?_⟩
  intro h0 k now
  subst h0
  have hlen : (applySets (NewLRUCache 0) ops).items.length = 0 := by
    have h1 := main.1
    omega
  have hnil : (applySets (NewLRUCache 0) ops).items = [] :=
    List.length_eq_zero.mp hlen
  simp [getOp, hnil]

/-- Witness for C2 at capacity 0 with two concrete `Set` calls. -/
theorem size_le_capacity_witness :
    sizeOp (applySets (NewLRUCache 0)
      [⟨"a", ['a'], 0, 0⟩, ⟨"b", ['b'], 0, 0⟩]) ≤ 0 ∧
    (getOp (applySets (NewLRUCache 0)
      [⟨"a", ['a'], 0, 0⟩, ⟨"b", ['b'], 0, 0⟩]) "a" 5).2.2 = false :=
  ⟨(size_le_capacity_after_sets 0 (by decide) _).1,
   (size_le_capacity_after_sets 0 (by decide) _).2 rfl "a" 5⟩

/-- C5: once `Stop()` has begun — the job queue is closed — every
subsequent `Enqueue` fails immediately at its channel send (Go panics on
a send to a closed channel, aborting the call towards the caller); it
neither blocks nor hands over the job. -/
theorem enqueue_after_stop_fails_fast (wp : WorkerPool)
    (h : wp.closed = true) :
    enqueueSend wp = SendResult.panicked ∧
    enqueueSend wp ≠ SendResult.blocked ∧
    enqueueSend wp ≠ SendResult.sent := by
  simp [enqueueSend, h]

/-- Witness for C5 on a freshly stopped two-worker pool. -/
theorem enqueue_after_stop_witness :
    enqueueSend (stopBegin (NewWorkerPool 2)) = SendResult.panicked ∧
    enqueueSend (stopBegin (NewWorkerPool 2)) ≠ SendResult.blocked ∧
    enqueueSend (stopBegin (NewWorkerPool 2)) ≠ SendResult.sent :=
  enqueue_after_stop_fails_fast (stopBegin (NewWorkerPool 2)) rfl

/-- C8: `Clear()` empties the store — size 0, every key absent, every
subsequent `Get` a miss — while `Stats()` reports the same cumulative
`Hits`, `Misses` and `Evictions` as immediately before the clear. -/
theorem clear_empties_but_keeps_stats (c : LRUCache) :
    sizeOp (clearOp c) = 0 ∧
    (∀ k : String, findItem (clearOp c) k = none) ∧
    (∀ (k : String) (now : Int), (getOp (clearOp c) k now).2.2 = false) ∧
    (statsOp (clearOp c)).hits = (statsOp c).hits ∧
    (statsOp (clearOp c)).misses = (statsOp c).misses ∧
    (statsOp (clearOp c)).evictions = (statsOp c).evictions :=
  ⟨rfl,
   fun k => by simp [findItem, clearOp],
   fun k now => by simp [getOp, clearOp],
   rfl, rfl, rfl⟩

/-- C9: evaluation of the split-lock `Get` at the failing input.  On a
cache holding one expired entry, the interleaving probe₁‖probe₂ then
commit₁‖commit₂ — which the read-lock-probe / write-lock-mutate split of
the Go `Get` permits — counts the single expiry eviction twice and
drives `totalSize` negative, whereas two atomic `Get`s count it once. -/
theorem split_lock_get_double_counts_eviction :
    (twoGetsProbeProbeCommitCommit expiredEntryCache "k" 20).evictions = 2 ∧
    (twoGetsProbeProbeCommitCommit expiredEntryCache "k" 20).misses = 2 ∧
    (twoGetsProbeProbeCommitCommit expiredEntryCache "k" 20).totalSize = -5 ∧
    (twoGetsAtomic expiredEntryCache "k" 20).evictions = 1 ∧
    (twoGetsAtomic expiredEntryCache "k" 20).totalSize = 0 ∧
    expiredEntryCache.evictions = 0 ∧
    expiredEntryCache.items.length = 1 := by
  decide

/-- C10: `NewWorkerPool` falls back to exactly 10 workers and a queue
capacity of 20 for every non-positive requested size, and uses exactly
`n` workers with a queue capacity of `2n` for positive `n`. -/
theorem workerpool_default_sizing (n : Int) :
    (n ≤ 0 → (NewWorkerPool n).maxWorkers = 10 ∧
      (NewWorkerPool n).queueCap = 20) ∧
    (0 < n → (NewWorkerPool n).maxWorkers = n ∧
      (NewWorkerPool n).queueCap = 2 * n) := by
  refine ⟨fun h => ?_, fun h => ?_⟩
  · constructor <;> simp [NewWorkerPool, if_pos h]
  · have h' : ¬ n ≤ 0 := not_le.mpr h
    constructor
    · simp [NewWorkerPool, h']
    · simp [NewWorkerPool, h']
      omega

/-- C3: inserting a fresh key into a cache whose list exactly fills a
positive capacity evicts exactly the least-recently-touched occupant
(the back of the recency list), leaving the new key at the front and the
rest in order; concretely, on a capacity-3 cache after
`Set a; Set b; Set c; Get a; Set d`, key `b` is gone and `d, a, c`
remain in exactly that recency order. -/
theorem lru_eviction_evicts_least_recent :
    (∀ (c : LRUCache) (k : String) (v : List Char) (ttl now : Int),
      0 < c.capacity →
      (c.items.length : Int) = c.capacity →
      (∀ it ∈ c.items, it.key ≠ k) →
      ((setOp c k v ttl now).1).items.map (fun it => it.key) =
        k :: ((c.items.map (fun it => it.key)).dropLast)) ∧
    findItem lruFinal "b" = none ∧
    (findItem lruFinal "a").isSome = true ∧
    (findItem lruFinal "c").isSome = true ∧
    (findItem lruFinal "d").isSome = true ∧
    lruFinal.items.map (fun it => it.key) = ["d", "a", "c"] := by
  refine ⟨?_, by decide, by decide, by decide, by decide, by decide⟩
  intro c k v ttl now hpos hlen hfresh
  have hfind : c.items.find? (fun it => it.key == k) = none := by
    rw [List.find?_eq_none]
    intro it hit
    simpa using hfresh it hit
  have hne : c.items ≠ [] := by
    intro h
    rw [h] at hlen
    simp at hlen
    omega
  obtain ⟨init, lst, hconcat⟩ := (List.eq_nil_or_concat c.items).resolve_left hne
  rw [List.concat_eq_append] at hconcat
  simp only [setOp, hfind]
  rw [evictLoop_cons_at_capacity _
      { key := k, value := v, size := (v.length : Int), createdAt := now
        expiresAt := if 0 < ttl then some (now + ttl) else none }
      init lst (by simp [hconcat]) (by rw [← hconcat]; exact hlen.symm)]
  rw [hconcat, List.map_cons, ← List.map_dropLast, List.dropLast_concat]

/-- Witness for C3: a capacity-1 cache holding `x` evicts it when `y` is
inserted. -/
theorem lru_eviction_witness :
    ((setOp ⟨1, 0, 0, 0, 1, [⟨"x", ['x'], 1, 0, none⟩]⟩
        "y" ['y'] 0 0).1).items.map (fun it => it.key) = ["y"] := by
  have h := lru_eviction_evicts_least_recent.1
    ⟨1, 0, 0, 0, 1, [⟨"x", ['x'], 1, 0, none⟩]⟩ "y" ['y'] 0 0
    (by decide) (by decide) (by decide)
  simpa using h

/-- C4: serializing a `CachedResponse` with status 200, the single
header `Content-Type: text/plain`, and an arbitrary body, then parsing
the produced bytes, reproduces the status code, the header multimap and
the body bytes exactly — the first blank-line split lands at the end of
the serialized header block whatever the body contains. -/
theorem serialize_parse_roundtrip (body : List Char) :
    parseCachedResponse (serializeResponse
      { statusCode := 200, header := [("Content-Type", ["text/plain"])]
        body := body }) =
    some { statusCode := 200, header := [("Content-Type", ["text/plain"])]
           body := body } := rfl

/-- C7: with an empty allow-list every host passes; with a non-empty one
a host passes exactly when some configured domain is a plain string
suffix of it — so `["example.com"]` admits `www.example.com` and
`evil-example.com` alike — and a request for `other.org` is answered
with status 403 and the `http.Error` message `Domain not allowed`
(whose written body is the message plus the newline `Fprintln`
appends). -/
theorem domain_suffix_filter :
    (∀ host : String, isDomainAllowed [] host = true) ∧
    (∀ (allowed : List String) (host : String), allowed ≠ [] →
      (isDomainAllowed allowed host = true ↔
        ∃ d ∈ allowed, d.data.isSuffixOf host.data = true)) ∧
    isDomainAllowed ["example.com"] "www.example.com" = true ∧
    isDomainAllowed ["example.com"] "evil-example.com" = true ∧
    isDomainAllowed ["example.com"] "other.org" = false ∧
    (handleRequest ⟨["example.com"], 3600⟩ failingOracle 0 (NewLRUCache 4)
      otherOrgRequest).1.status = 403 ∧
    (handleRequest ⟨["example.com"], 3600⟩ failingOracle 0 (NewLRUCache 4)
      otherOrgRequest).1.errMsg = some "Domain not allowed" ∧
    (handleRequest ⟨["example.com"], 3600⟩ failingOracle 0 (NewLRUCache 4)
      otherOrgRequest).1.body = ("Domain not allowed\n").data := by
  refine ⟨fun host => rfl, ?_, by decide, by decide, by decide,
    by decide, by decide, by decide⟩
  intro allowed host hne
  have hie : allowed.isEmpty = false := by
    cases allowed with
    | nil => exact absurd rfl hne
    | cons a rest => rfl
  simp [isDomainAllowed, hie, List.any_eq_true]

/-- Witness for C7: the suffix criterion at the allow-list `["a"]` and
host `"ba"`. -/
theorem domain_suffix_filter_witness :
    isDomainAllowed ["a"] "ba" = true :=
  (domain_suffix_filter.2.1 ["a"] "ba" (by decide)).mpr
    ⟨"a", by decide, by decide⟩

/-- C1 counterexample: an upstream response whose only caching header is
an already-past `Expires` (parsed time 0, current time 100 s) makes
`calculateTTL` derive the negative TTL −100 s, but `cacheResponse`
replaces every non-positive derived TTL by the configured default
(3600 s here), so the stored entry is not already expired — contradicting
the claim that a zero-or-negative Expires-derived TTL is stored
unchanged and not special-cased. -/
theorem negative_ttl_overridden_cex :
    calculateTTL pastDateParse (100 * secondNs) pastExpiresHeader 3600 =
      -(100 * secondNs) ∧
    cacheResponseTTL pastDateParse (100 * secondNs) pastExpiresHeader 3600 =
      3600 * secondNs ∧
    cacheResponseTTL pastDateParse (100 * secondNs) pastExpiresHeader 3600 ≠
      calculateTTL pastDateParse (100 * secondNs) pastExpiresHeader 3600 ∧
    ((findItem (cacheResponse pastDateParse (100 * secondNs) ⟨[], 3600⟩
        (NewLRUCache 4) "GET:u" ⟨200, pastExpiresHeader, []⟩)
        "GET:u").map (fun it => expiredAt it (100 * secondNs))) = some false ∧
    ((findItem (cacheResponse pastDateParse (100 * secondNs) ⟨[], 3600⟩
        (NewLRUCache 4) "GET:u" ⟨200, pastExpiresHeader, []⟩)
        "GET:u").map (fun it => it.expiresAt)) =
      some (some (3700 * secondNs)) := by
  refine ⟨by decide, by decide, by decide, by decide, by decide⟩

/-- C1 as amended: the TTL is derived in strict precedence — first
parsed `max-age` directive, else `time.Until` of the first parsing of
`Expires`, else the configured default — but a derived TTL that is zero
or negative is replaced by the configured default before the entry is
stored (`if ttl <= 0`), so such entries are not stored already
expired. -/
theorem ttl_precedence_with_default_override
    (dp : String → String → Option Int) (now : Int) (hdr : Header)
    (cfgTTL : Int) :
    (∀ n : Int, ccMaxAge hdr = some n →
      calculateTTL dp now hdr cfgTTL = n * secondNs) ∧
    (ccMaxAge hdr = none → ∀ t : Int, expiresTime dp hdr = some t →
      calculateTTL dp now hdr cfgTTL = t - now) ∧
    (ccMaxAge hdr = none → expiresTime dp hdr = none →
      calculateTTL dp now hdr cfgTTL = cfgTTL * secondNs) ∧
    (0 < calculateTTL dp now hdr cfgTTL →
      cacheResponseTTL dp now hdr cfgTTL = calculateTTL dp now hdr cfgTTL) ∧
    (calculateTTL dp now hdr cfgTTL ≤ 0 →
      cacheResponseTTL dp now hdr cfgTTL = cfgTTL * secondNs) := by
  refine ⟨?_, ?_, ?_, ?_, ?_⟩
  · intro n h
    simp [calculateTTL, h]
  · intro h t ht
    simp [calculateTTL, h, ht]
  · intro h ht
    simp [calculateTTL, h, ht]
  · intro h
    simp only [cacheResponseTTL]
    rw [if_neg (not_le.mpr h)]
  · intro h
    simp only [cacheResponseTTL]
    rw [if_pos h]

/-- Witness for the amended C1 at a header carrying `max-age=60`. -/
theorem ttl_precedence_witness :
    calculateTTL (fun _ _ => none) 0
      [("Cache-Control", ["max-age=60"])] 7 = 60 * secondNs ∧
    cacheResponseTTL (fun _ _ => none) 0
      [("Cache-Control", ["max-age=60"])] 7 = 60 * secondNs := by
  have h := ttl_precedence_with_default_override (fun _ _ => none) 0
    [("Cache-Control", ["max-age=60"])] 7
  have h1 := h.1 60 (by decide)
  have h4 := h.2.2.2.1 (by rw [h1]; decide)
  exact ⟨h1, by rw [h4, h1]⟩

/-- Both error exits of target resolution carry status 400. -/
theorem resolveTarget_error_status (o : Oracle) (r : Request)
    (e : PipelineResult) (h : resolveTarget o r = Except.error e) :
    e.status = 400 := by
  unfold resolveTarget at h
  split at h
  · cases hp : o.parseURL with
    | none => rw [hp] at h; cases h; rfl
    | some u => rw [hp] at h; cases h
  · split at h
    · cases h; rfl
    · cases h

/-- An item returned by a successful `Get` was among the cache's
occupants before the call. -/
theorem getOp_found_mem (c : LRUCache) (k : String) (now : Int)
    (c1 : LRUCache) (it : CacheItem)
    (h : getOp c k now = (c1, some it, true)) : it ∈ c.items := by
  unfold getOp at h
  cases hf : c.items.find? (fun x => x.key == k) with
  | none => rw [hf] at h; simp at h
  | some item0 =>
    rw [hf] at h
    dsimp only at h
    by_cases he : expiredAt item0 now = true
    · rw [if_pos he] at h; simp at h
    · rw [if_neg he] at h
      have h21 : some item0 = some it := congrArg (fun p => p.2.1) h
      have h22 := Option.some.inj h21
      subst h22
      exact List.mem_of_find?_eq_some hf

/-- C6 as amended: the statuses the pipeline produces itself are 400
(missing or invalid target), 403 (domain not allowed), 502 (upstream
fetch failure) and additionally 500 (outbound proxy-request construction
failure); every other status written to the client is either the live
upstream status or the status replayed from a stored cached response. -/
theorem handleRequest_status_classification (cfg : ProxyConfig) (o : Oracle)
    (now : Int) (c : LRUCache) (r : Request) :
    (handleRequest cfg o now c r).1.status ∈ ([400, 403, 500, 502] : List Int) ∨
    (∃ ur : UpstreamResponse, o.fetch = some ur ∧
      (handleRequest cfg o now c r).1.status = ur.status) ∨
    (∃ it : CacheItem, ∃ cr : CachedResponse, it ∈ c.items ∧
      parseCachedResponse it.value = some cr ∧
      (handleRequest cfg o now c r).1.status = cr.statusCode) := by
  unfold handleRequest
  cases hres : resolveTarget o r with
  | error e =>
    left
    have h400 := resolveTarget_error_status o r e hres
    simp [h400, httpError]
  | ok u =>
    by_cases hd : isDomainAllowed cfg.allowedDomains u.host = true
    · simp only [hd, Bool.not_true, Bool.false_eq_true, if_false]
      by_cases hc : isCacheable r = true
      · simp only [hc, if_true]
        rcases hget : getOp c (createCacheKey r u) now with ⟨c1, oi, b⟩
        cases oi with
        | some item =>
          cases b with
          | true =>
            cases hparse : parseCachedResponse item.value with
            | some cr =>
              right; right
              refine ⟨item, cr, getOp_found_mem c _ now c1 item hget, hparse, ?_⟩
              simp [hget, hparse]
            | none =>
              by_cases hclone : o.cloneOk = true
              · cases hfetch : o.fetch with
                | none => left; simp [hget, hparse, hclone, hfetch, httpError]
                | some ur =>
                  right; left
                  exact ⟨ur, rfl, by simp [hget, hparse, hclone, hfetch, httpError]⟩
              · left; simp [hget, hparse, hclone, httpError]
          | false =>
            by_cases hclone : o.cloneOk = true
            · cases hfetch : o.fetch with
              | none => left; simp [hget, hclone, hfetch, httpError]
              | some ur =>
                right; left
                exact ⟨ur, rfl, by simp [hget, hclone, hfetch, httpError]⟩
            · left; simp [hget, hclone, httpError]
        | none =>
          cases b with
          | true =>
            by_cases hclone : o.cloneOk = true
            · cases hfetch : o.fetch with
              | none => left; simp [hget, hclone, hfetch, httpError]
              | some ur =>
                right; left
                exact ⟨ur, rfl, by simp [hget, hclone, hfetch, httpError]⟩
            · left; simp [hget, hclone, httpError]
          | false =>
            by_cases hclone : o.cloneOk = true
            · cases hfetch : o.fetch with
              | none => left; simp [hget, hclone, hfetch, httpError]
              | some ur =>
                right; left
                exact ⟨ur, rfl, by simp [hget, hclone, hfetch, httpError]⟩
            · left; simp [hget, hclone, httpError]
      · by_cases hclone : o.cloneOk = true
        · cases hfetch : o.fetch with
          | none => left; simp [hc, hclone, hfetch, httpError]
          | some ur =>
            right; left
            exact ⟨ur, rfl, by simp [hc, hclone, hfetch, httpError]⟩
        · left; simp [hc, hclone, httpError]
    · left
      have hd' : isDomainAllowed cfg.allowedDomains u.host = false := by
        simpa using hd
      simp [hd', httpError]

/-- C6 counterexample: a POST for an allowed absolute URL on which
`http.NewRequest` fails inside `cloneRequest` is answered with the
pipeline's own status 500 (`Error creating proxy request`), which is
none of 400, 403, 502 and cannot have been passed through: no upstream
response exists (`fetch = none`) and the cache is empty. -/
theorem internal_error_status_cex :
    (handleRequest ⟨[], 3600⟩ failingOracle 0 (NewLRUCache 4)
      postRequest).1.status = 500 ∧
    ¬ ((500 : Int) ∈ ([400, 403, 502] : List Int)) ∧
    failingOracle.fetch = none ∧
    (NewLRUCache 4).items = [] :=
  ⟨by decide, by decide, rfl, rfl⟩

/-- Witness for C10 at the sizes −3 and 7. -/
theorem workerpool_default_sizing_witness :
    (NewWorkerPool (-3)).maxWorkers = 10 ∧
    (NewWorkerPool (-3)).queueCap = 20 ∧
    (NewWorkerPool 7).maxWorkers = 7 ∧
    (NewWorkerPool 7).queueCap = 2 * 7 :=
  ⟨((workerpool_default_sizing (-3)).1 (by decide)).1,
   ((workerpool_default_sizing (-3)).1 (by decide)).2,
   ((workerpool_default_sizing 7).2 (by decide)).1,
   ((workerpool_default_sizing 7).2 (by decide)).2⟩

end ProxyServer
